import Mathlib

/-!
Verification of the weight-annealing and loss-aggregation logic of
`models/losses.py` (class `Loss`).

The embedding uses exact rationals (`ℚ`) for the numeric values the Python
code manipulates, models the mutable `Loss` object as an explicit record
`LossState`, and models exceptions (`AssertionError` from the two asserts,
`ValueError` from `min`/`max` over an empty sequence, the `raise Warning`
branch) as an error component carried next to the post-call state, so that
the partial mutations Python performs before an exception stay visible.
-/

namespace HotSpotLoss

/-- The fields of the `Loss` object (`Loss.__init__`) that the weight-update
and aggregation logic reads or writes: the positional weight vector
`self.weights`, the preset name `self.loss_type`, the kernel name
`self.div_decay`, the scalar `self.heat_lambda`, and the lazily created
attribute `self.decay_params_list` (absent = `none`). -/
structure LossState where
  weights : List ℚ
  loss_type : String
  div_decay : String
  heat_lambda : ℚ
  decay_params_list : Option (List (ℚ × ℚ))
deriving DecidableEq

/-- The exceptions the modelled code can raise: a failed `assert`
(`AssertionError`), `min()`/`max()` applied to an empty sequence
(`ValueError`), and the `raise Warning(...)` branch for an unsupported
decay kernel name. -/
inductive UpdError where
  | assertionError
  | valueError
  | warningError
deriving DecidableEq

/-- Python slice `l[::2]`: every second element starting from the first. -/
def sliceEvery2 : List ℚ → List ℚ
  | [] => []
  | [a] => [a]
  | a :: _ :: rest => a :: sliceEvery2 rest

/-- Python slice `l[1::2]`: every second element starting from the second. -/
def sliceEvery2Off1 (l : List ℚ) : List ℚ := sliceEvery2 (l.drop 1)

/-- Python slice `params[1:-1]`: the middle elements of the params sequence. -/
def middleOf (ps : List ℚ) : List ℚ := (ps.drop 1).dropLast

/-- `list(zip([params[0], *params[1:-1][1::2], params[-1]], [0, *params[1:-1][::2], 1]))`
from `Loss.update_div_weight`: the (value, fraction) control-point list. -/
def decayParamsListOf (ps : List ℚ) : List (ℚ × ℚ) :=
  List.zip (ps.headD 0 :: (sliceEvery2Off1 (middleOf ps) ++ [ps.getLastD 0]))
           ((0 : ℚ) :: (sliceEvery2 (middleOf ps) ++ [1]))

/-- Python `min(list, key=lambda tup: tup[1])`: the first element whose second
component is minimal, `none` on the empty list (where Python raises
`ValueError`). -/
def pyMinByFrac : List (ℚ × ℚ) → Option (ℚ × ℚ)
  | [] => none
  | a :: rest => some (rest.foldl (fun b t => if t.2 < b.2 then t else b) a)

/-- Python `max(list, key=lambda tup: tup[1])`: the first element whose second
component is maximal, `none` on the empty list (where Python raises
`ValueError`). -/
def pyMaxByFrac : List (ℚ × ℚ) → Option (ℚ × ℚ)
  | [] => none
  | a :: rest => some (rest.foldl (fun b t => if b.2 < t.2 then t else b) a)

/-- `min([tup for tup in self.decay_params_list if tup[1] >= curr], key=...)`:
the upper bracketing control point `(we, e)`. -/
def selectUpper (pts : List (ℚ × ℚ)) (curr : ℚ) : Option (ℚ × ℚ) :=
  pyMinByFrac (pts.filter fun t => decide (curr ≤ t.2))

/-- `max([tup for tup in self.decay_params_list if tup[1] <= curr], key=...)`:
the lower bracketing control point `(w0, s)`. -/
def selectLower (pts : List (ℚ × ℚ)) (curr : ℚ) : Option (ℚ × ℚ) :=
  pyMaxByFrac (pts.filter fun t => decide (t.2 ≤ curr))

/-- The guard under which the `linear` and `quintic` kernels reach the
expression containing the division by `(e - s)`: the first `if
current_iteration < s * n_iterations` failed and the `elif current_iteration
>= s * n_iterations and current_iteration < e * n_iterations` holds. -/
def interpolationBranch (ci n s e : ℚ) : Bool :=
  !(decide (ci < s * n)) && decide (s * n ≤ ci ∧ ci < e * n)

/-- The `linear` kernel of `Loss.update_div_weight`:
`w0` / `w0 + (we - w0) * (current_iteration / n_iterations - s) / (e - s)` /
`we` following the source's `if`/`elif`/`else`. -/
def linearValue (ci n w0 s we e : ℚ) : ℚ :=
  if ci < s * n then w0
  else if s * n ≤ ci ∧ ci < e * n then w0 + (we - w0) * (ci / n - s) / (e - s)
  else we

/-- The `quintic` kernel of `Loss.update_div_weight`. -/
def quinticValue (ci n w0 s we e : ℚ) : ℚ :=
  if ci < s * n then w0
  else if s * n ≤ ci ∧ ci < e * n then
    w0 + (we - w0) * (1 - (1 - (ci / n - s) / (e - s)) ^ 5)
  else we

/-- The `step` kernel of `Loss.update_div_weight`: `w0` while
`current_iteration < s * n_iterations`, else `we`. -/
def stepValue (ci n w0 s we : ℚ) : ℚ :=
  if ci < s * n then w0 else we

/-- The `if`/`elif` cascade on `self.div_decay` at the end of
`Loss.update_div_weight`, writing `self.weights[4]`; `"none"` leaves the
state untouched and an unrecognized kernel raises `Warning`. -/
def applyDivDecay (st : LossState) (ci n w0 s we e : ℚ) : LossState × Option UpdError :=
  if st.div_decay = "linear" then
    ({ st with weights := st.weights.set 4 (linearValue ci n w0 s we e) }, none)
  else if st.div_decay = "quintic" then
    ({ st with weights := st.weights.set 4 (quinticValue ci n w0 s we e) }, none)
  else if st.div_decay = "step" then
    ({ st with weights := st.weights.set 4 (stepValue ci n w0 s we) }, none)
  else if st.div_decay = "none" then (st, none)
  else (st, some UpdError.warningError)

/-- The memoized construction at the head of `Loss.update_div_weight`: if
`self.decay_params_list` exists it is reused and `params` is ignored;
otherwise the two asserts check `len(params) >= 2` and
`len(params[1:-1]) % 2 == 0` and the control-point list is built
(`none` = `AssertionError`). -/
def effectiveParamsList (st : LossState) (ps : List ℚ) : Option (List (ℚ × ℚ)) :=
  match st.decay_params_list with
  | some l => some l
  | none =>
    if 2 ≤ ps.length ∧ (middleOf ps).length % 2 = 0 then some (decayParamsListOf ps)
    else none

/-- The bracket selection and kernel dispatch of `Loss.update_div_weight`
once the control-point list `pts` is available (already stored on the
state): an empty bracket search raises `ValueError`. -/
def queryDecayList (st1 : LossState) (ci n : ℚ) (pts : List (ℚ × ℚ)) :
    LossState × Option UpdError :=
  match selectUpper pts (ci / n), selectLower pts (ci / n) with
  | some (we, e), some (w0, s) => applyDivDecay st1 ci n w0 s we e
  | _, _ => (st1, some UpdError.valueError)

/-- `Loss.update_div_weight(current_iteration, n_iterations, params)`:
memoized construction, bracket selection at
`curr = current_iteration / n_iterations`, then the decay-kernel cascade.
The returned pair is the post-call state together with the exception the
call raised, if any. -/
def update_div_weight (st : LossState) (ci n : ℚ) (ps : List ℚ) :
    LossState × Option UpdError :=
  match effectiveParamsList st ps with
  | none => (st, some UpdError.assertionError)
  | some pts => queryDecayList { st with decay_params_list := some pts } ci n pts

/-- The writes `Loss.forward` performs on `self.weights`, preset by preset:
`siren_wo_n` executes `self.weights[2] = 0`, `igr` executes
`self.weights[1] = 0`, `igr_wo_n` executes `self.weights[1] = 0` and
`self.weights[2] = 0`; every other branch of the `loss_type` cascade (and
the final `raise Warning`) performs no write to `self`. -/
def forwardWeightWrites (loss_type : String) (w : List ℚ) : List ℚ :=
  if loss_type = "siren" then w
  else if loss_type = "siren_wo_n" then w.set 2 0
  else if loss_type = "igr" then w.set 1 0
  else if loss_type = "igr_wo_n" then (w.set 1 0).set 2 0
  else if loss_type = "siren_w_div" then w
  else if loss_type = "siren_wo_n_w_div" then w
  else if loss_type = "igr_wo_eik_w_heat" then w
  else if loss_type = "igr_w_heat" then w
  else if loss_type = "sal" then w
  else if loss_type = "phase" then w
  else if loss_type = "everything_including_div_heat_sal" then w
  else w

/-- The effect of one `Loss.forward` call on the fields of the `Loss`
object: only `self.weights` is ever assigned (see `forwardWeightWrites`);
no other attribute of `self` is written anywhere in `Loss.forward`. -/
def forward_state_effect (st : LossState) : LossState :=
  { st with weights := forwardWeightWrites st.loss_type st.weights }

/-! ### Helper lemmas about the bracket search -/

theorem foldlMinStep_head_le (t a : ℚ × ℚ) :
    (if t.2 < a.2 then t else a).2 ≤ a.2 ∧ (if t.2 < a.2 then t else a).2 ≤ t.2 := by
  split
  · exact ⟨le_of_lt ‹_›, le_refl _⟩
  · exact ⟨le_refl _, le_of_not_lt ‹_›⟩

theorem foldlMaxStep_head_le (t a : ℚ × ℚ) :
    a.2 ≤ (if a.2 < t.2 then t else a).2 ∧ t.2 ≤ (if a.2 < t.2 then t else a).2 := by
  split
  · exact ⟨le_of_lt ‹_›, le_refl _⟩
  · exact ⟨le_refl _, le_of_not_lt ‹_›⟩

theorem foldlMinStep_mem (rest : List (ℚ × ℚ)) (a : ℚ × ℚ) :
    rest.foldl (fun b t => if t.2 < b.2 then t else b) a ∈ a :: rest := by
  induction rest generalizing a with
  | nil => simp
  | cons t rest ih =>
    simp only [List.foldl_cons]
    rcases List.mem_cons.mp (ih (if t.2 < a.2 then t else a)) with h1 | h1
    · rw [h1]
      split
      · simp
      · simp
    · simp [h1]

theorem foldlMaxStep_mem (rest : List (ℚ × ℚ)) (a : ℚ × ℚ) :
    rest.foldl (fun b t => if b.2 < t.2 then t else b) a ∈ a :: rest := by
  induction rest generalizing a with
  | nil => simp
  | cons t rest ih =>
    simp only [List.foldl_cons]
    rcases List.mem_cons.mp (ih (if a.2 < t.2 then t else a)) with h1 | h1
    · rw [h1]
      split
      · simp
      · simp
    · simp [h1]

theorem foldlMinStep_le (rest : List (ℚ × ℚ)) (a : ℚ × ℚ) :
    ∀ x ∈ a :: rest, (rest.foldl (fun b t => if t.2 < b.2 then t else b) a).2 ≤ x.2 := by
  induction rest generalizing a with
  | nil =>
    intro x hx
    rcases List.mem_cons.mp hx with h1 | h1
    · rw [h1]
      exact le_refl _
    · cases h1
  | cons t rest ih =>
    intro x hx
    simp only [List.foldl_cons]
    have hm := ih (if t.2 < a.2 then t else a)
    have hHead := hm _ (List.mem_cons_self _ _)
    rcases List.mem_cons.mp hx with h1 | h1
    · rw [h1]
      exact le_trans hHead (foldlMinStep_head_le t a).1
    · rcases List.mem_cons.mp h1 with h2 | h2
      · rw [h2]
        exact le_trans hHead (foldlMinStep_head_le t a).2
      · exact hm x (List.mem_cons.mpr (Or.inr h2))

theorem foldlMaxStep_le (rest : List (ℚ × ℚ)) (a : ℚ × ℚ) :
    ∀ x ∈ a :: rest, x.2 ≤ (rest.foldl (fun b t => if b.2 < t.2 then t else b) a).2 := by
  induction rest generalizing a with
  | nil =>
    intro x hx
    rcases List.mem_cons.mp hx with h1 | h1
    · rw [h1]
      exact le_refl _
    · cases h1
  | cons t rest ih =>
    intro x hx
    simp only [List.foldl_cons]
    have hm := ih (if a.2 < t.2 then t else a)
    have hHead := hm _ (List.mem_cons_self _ _)
    rcases List.mem_cons.mp hx with h1 | h1
    · rw [h1]
      exact le_trans (foldlMaxStep_head_le t a).1 hHead
    · rcases List.mem_cons.mp h1 with h2 | h2
      · rw [h2]
        exact le_trans (foldlMaxStep_head_le t a).2 hHead
      · exact hm x (List.mem_cons.mpr (Or.inr h2))

theorem pyMinByFrac_mem {l : List (ℚ × ℚ)} {t : ℚ × ℚ} (h : pyMinByFrac l = some t) :
    t ∈ l := by
  cases l with
  | nil => simp [pyMinByFrac] at h
  | cons a rest =>
    simp only [pyMinByFrac, Option.some.injEq] at h
    rw [← h]
    exact foldlMinStep_mem rest a

theorem pyMaxByFrac_mem {l : List (ℚ × ℚ)} {t : ℚ × ℚ} (h : pyMaxByFrac l = some t) :
    t ∈ l := by
  cases l with
  | nil => simp [pyMaxByFrac] at h
  | cons a rest =>
    simp only [pyMaxByFrac, Option.some.injEq] at h
    rw [← h]
    exact foldlMaxStep_mem rest a

theorem pyMinByFrac_le {l : List (ℚ × ℚ)} {t : ℚ × ℚ} (h : pyMinByFrac l = some t) :
    ∀ x ∈ l, t.2 ≤ x.2 := by
  cases l with
  | nil => simp [pyMinByFrac] at h
  | cons a rest =>
    simp only [pyMinByFrac, Option.some.injEq] at h
    rw [← h]
    exact foldlMinStep_le rest a

theorem pyMaxByFrac_le {l : List (ℚ × ℚ)} {t : ℚ × ℚ} (h : pyMaxByFrac l = some t) :
    ∀ x ∈ l, x.2 ≤ t.2 := by
  cases l with
  | nil => simp [pyMaxByFrac] at h
  | cons a rest =>
    simp only [pyMaxByFrac, Option.some.injEq] at h
    rw [← h]
    exact foldlMaxStep_le rest a

theorem pyMinByFrac_eq_none {l : List (ℚ × ℚ)} (h : pyMinByFrac l = none) : l = [] := by
  cases l with
  | nil => rfl
  | cons a rest => simp [pyMinByFrac] at h

theorem pyMaxByFrac_eq_none {l : List (ℚ × ℚ)} (h : pyMaxByFrac l = none) : l = [] := by
  cases l with
  | nil => rfl
  | cons a rest => simp [pyMaxByFrac] at h

theorem selectUpper_mem {pts : List (ℚ × ℚ)} {curr we e : ℚ}
    (h : selectUpper pts curr = some (we, e)) : (we, e) ∈ pts ∧ curr ≤ e := by
  have hm := List.mem_filter.mp (pyMinByFrac_mem h)
  exact ⟨hm.1, of_decide_eq_true hm.2⟩

theorem selectLower_mem {pts : List (ℚ × ℚ)} {curr w0 s : ℚ}
    (h : selectLower pts curr = some (w0, s)) : (w0, s) ∈ pts ∧ s ≤ curr := by
  have hm := List.mem_filter.mp (pyMaxByFrac_mem h)
  exact ⟨hm.1, of_decide_eq_true hm.2⟩

theorem selectUpper_min {pts : List (ℚ × ℚ)} {curr we e : ℚ}
    (h : selectUpper pts curr = some (we, e)) :
    ∀ x ∈ pts, curr ≤ x.2 → e ≤ x.2 := by
  intro x hx hcx
  exact pyMinByFrac_le h x (List.mem_filter.mpr ⟨hx, decide_eq_true hcx⟩)

theorem selectLower_max {pts : List (ℚ × ℚ)} {curr w0 s : ℚ}
    (h : selectLower pts curr = some (w0, s)) :
    ∀ x ∈ pts, x.2 ≤ curr → x.2 ≤ s := by
  intro x hx hcx
  exact pyMaxByFrac_le h x (List.mem_filter.mpr ⟨hx, decide_eq_true hcx⟩)

/-! ### Dispatch lemmas for `update_div_weight` -/

theorem update_div_weight_eq_query {st : LossState} {ps : List ℚ} {pts : List (ℚ × ℚ)}
    (ci n : ℚ) (hEff : effectiveParamsList st ps = some pts) :
    update_div_weight st ci n ps =
      queryDecayList { st with decay_params_list := some pts } ci n pts := by
  unfold update_div_weight
  rw [hEff]

theorem queryDecayList_eq_apply {pts : List (ℚ × ℚ)} {ci n we e w0 s : ℚ}
    (st1 : LossState)
    (hU : selectUpper pts (ci / n) = some (we, e))
    (hL : selectLower pts (ci / n) = some (w0, s)) :
    queryDecayList st1 ci n pts = applyDivDecay st1 ci n w0 s we e := by
  unfold queryDecayList
  rw [hU, hL]

theorem applyDivDecay_linear (st1 : LossState) (h : st1.div_decay = "linear")
    (ci n w0 s we e : ℚ) :
    applyDivDecay st1 ci n w0 s we e =
      ({ st1 with weights := st1.weights.set 4 (linearValue ci n w0 s we e) }, none) := by
  simp [applyDivDecay, h]

theorem applyDivDecay_quintic (st1 : LossState) (h : st1.div_decay = "quintic")
    (ci n w0 s we e : ℚ) :
    applyDivDecay st1 ci n w0 s we e =
      ({ st1 with weights := st1.weights.set 4 (quinticValue ci n w0 s we e) }, none) := by
  simp [applyDivDecay, h]

theorem applyDivDecay_step (st1 : LossState) (h : st1.div_decay = "step")
    (ci n w0 s we e : ℚ) :
    applyDivDecay st1 ci n w0 s we e =
      ({ st1 with weights := st1.weights.set 4 (stepValue ci n w0 s we) }, none) := by
  simp [applyDivDecay, h]

theorem applyDivDecay_snd_ne_assert (st1 : LossState) (ci n w0 s we e : ℚ) :
    ¬ (applyDivDecay st1 ci n w0 s we e).2 = some UpdError.assertionError := by
  unfold applyDivDecay
  split_ifs <;> simp

theorem applyDivDecay_fst_decay_list (st1 : LossState) (ci n w0 s we e : ℚ) :
    (applyDivDecay st1 ci n w0 s we e).1.decay_params_list = st1.decay_params_list := by
  unfold applyDivDecay
  split_ifs <;> rfl

theorem queryDecayList_snd_ne_assert (st1 : LossState) (ci n : ℚ) (pts : List (ℚ × ℚ)) :
    ¬ (queryDecayList st1 ci n pts).2 = some UpdError.assertionError := by
  unfold queryDecayList
  cases hU : selectUpper pts (ci / n) with
  | none =>
    cases hL : selectLower pts (ci / n) with
    | none => simp
    | some p => simp
  | some p =>
    obtain ⟨we, e⟩ := p
    cases hL : selectLower pts (ci / n) with
    | none => simp
    | some q =>
      obtain ⟨w0, s⟩ := q
      exact applyDivDecay_snd_ne_assert st1 ci n w0 s we e

theorem queryDecayList_fst_decay_list (st1 : LossState) (ci n : ℚ) (pts : List (ℚ × ℚ)) :
    (queryDecayList st1 ci n pts).1.decay_params_list = st1.decay_params_list := by
  unfold queryDecayList
  cases hU : selectUpper pts (ci / n) with
  | none =>
    cases hL : selectLower pts (ci / n) with
    | none => rfl
    | some p => rfl
  | some p =>
    obtain ⟨we, e⟩ := p
    cases hL : selectLower pts (ci / n) with
    | none => rfl
    | some q =>
      obtain ⟨w0, s⟩ := q
      exact applyDivDecay_fst_decay_list st1 ci n w0 s we e

/-! ### Concrete states used by the witnesses and counterexamples -/

/-- A freshly constructed `Loss` object with `div_decay="linear"` and no
cached schedule. -/
def scheduleState : LossState :=
  { weights := [1, 1, 1, 1, 1, 1, 1, 1], loss_type := "siren_w_div",
    div_decay := "linear", heat_lambda := 100, decay_params_list := none }

/-- A `Loss` object with `div_decay="step"` and a cached two-point schedule. -/
def stepState : LossState :=
  { weights := [1, 1, 1, 1, 1, 1, 1, 1], loss_type := "siren_w_div",
    div_decay := "step", heat_lambda := 100,
    decay_params_list := some [(100, 0), (0, 1)] }

/-- A `Loss` object with `div_decay="step"` and the cached schedule of the
spec's running example, `[(100,0), (100,1/2), (0,3/4), (0,1)]`. -/
def stepState2 : LossState :=
  { weights := [1, 1, 1, 1, 1, 1, 1, 1], loss_type := "siren_w_div",
    div_decay := "step", heat_lambda := 100,
    decay_params_list := some [(100, 0), (100, 1/2), (0, 3/4), (0, 1)] }

/-! ### C1 -/

/-- C1: for every constructed schedule and every query whose lower bracket is
`(w0, s)` and upper bracket `(we, e)` with `s ≤ progress < e` (and `s < e`),
the `linear` kernel writes `w0 + (we - w0) * (progress - s) / (e - s)` into
`weights[4]`. -/
theorem linear_kernel_interpolates (st : LossState) (ci n : ℚ) (ps : List ℚ)
    (pts : List (ℚ × ℚ)) (we e w0 s : ℚ)
    (hEff : effectiveParamsList st ps = some pts)
    (hk : st.div_decay = "linear")
    (hn : 0 < n)
    (hU : selectUpper pts (ci / n) = some (we, e))
    (hL : selectLower pts (ci / n) = some (w0, s))
    (hs : s ≤ ci / n) (he : ci / n < e) (hse : s < e) :
    update_div_weight st ci n ps =
      ({ st with decay_params_list := some pts, weights := st.weights.set 4 (w0 + (we - w0) * (ci / n - s) / (e - s)) }, none) := by
  have hsn : s * n ≤ ci := (le_div_iff₀ hn).mp hs
  have hen : ci < e * n := (div_lt_iff₀ hn).mp he
  rw [update_div_weight_eq_query ci n hEff, queryDecayList_eq_apply _ hU hL,
      applyDivDecay_linear { st with decay_params_list := some pts } hk ci n w0 s we e]
  unfold linearValue
  rw [if_neg (not_lt.mpr hsn), if_pos ⟨hsn, hen⟩]

/-- C1 witness: the first call on a fresh state with params
`(100, 1/2, 100, 3/4, 0, 0)` at `current_iteration=6000, n_iterations=10000`
builds `[(100,0), (100,1/2), (0,3/4), (0,1)]`, selects the bracket
`(100, 1/2)-(0, 3/4)` and sets `weights[4]` to `60`. -/
theorem linear_kernel_interpolates_witness :
    effectiveParamsList scheduleState [100, 1/2, 100, 3/4, 0, 0] =
      some [(100, 0), (100, 1/2), (0, 3/4), (0, 1)] ∧
    selectUpper [(100, 0), (100, 1/2), (0, 3/4), (0, 1)] (6000 / 10000) = some (0, 3/4) ∧
    selectLower [(100, 0), (100, 1/2), (0, 3/4), (0, 1)] (6000 / 10000) = some (100, 1/2) ∧
    update_div_weight scheduleState 6000 10000 [100, 1/2, 100, 3/4, 0, 0] =
      ({ scheduleState with
          decay_params_list := some [(100, 0), (100, 1/2), (0, 3/4), (0, 1)],
          weights := [1, 1, 1, 1, 60, 1, 1, 1] }, none) := by
  have hEff : effectiveParamsList scheduleState [100, 1/2, 100, 3/4, 0, 0] =
      some [(100, 0), (100, 1/2), (0, 3/4), (0, 1)] := by
    norm_num [effectiveParamsList, scheduleState, decayParamsListOf, middleOf,
      sliceEvery2, sliceEvery2Off1, List.dropLast]
  have hU : selectUpper [(100, 0), (100, 1/2), (0, 3/4), (0, 1)] ((6000 : ℚ) / 10000) =
      some (0, 3/4) := by
    norm_num [selectUpper, pyMinByFrac, List.filter]
  have hL : selectLower [(100, 0), (100, 1/2), (0, 3/4), (0, 1)] ((6000 : ℚ) / 10000) =
      some (100, 1/2) := by
    norm_num [selectLower, pyMaxByFrac, List.filter]
  have h := linear_kernel_interpolates scheduleState 6000 10000
    [100, 1/2, 100, 3/4, 0, 0] [(100, 0), (100, 1/2), (0, 3/4), (0, 1)]
    0 (3/4) 100 (1/2) hEff rfl (by norm_num) hU hL
    (by norm_num) (by norm_num) (by norm_num)
  refine ⟨hEff, hU, hL, ?_⟩
  rw [h]
  norm_num [scheduleState, List.set]

/-! ### C6 -/

/-- C6: with the `step` kernel, a query at progress `p` selecting lower
bracket `(w0, s)` and upper bracket `(we, e)` assigns `w0` when `p ∈ [0, s)`
(vacuously, since the selected `s` always satisfies `s ≤ p`) and `we` when
`p ∈ [s, 1]`: a hard jump at the lower checkpoint, no blending. -/
theorem step_kernel_indicator (st : LossState) (ci n : ℚ) (ps : List ℚ)
    (pts : List (ℚ × ℚ)) (we e w0 s : ℚ)
    (hEff : effectiveParamsList st ps = some pts)
    (hk : st.div_decay = "step") (hn : 0 < n)
    (hU : selectUpper pts (ci / n) = some (we, e))
    (hL : selectLower pts (ci / n) = some (w0, s)) :
    (0 ≤ ci / n → ci / n < s →
      update_div_weight st ci n ps =
        ({ st with decay_params_list := some pts, weights := st.weights.set 4 w0 }, none)) ∧
    (s ≤ ci / n → ci / n ≤ 1 →
      update_div_weight st ci n ps =
        ({ st with decay_params_list := some pts, weights := st.weights.set 4 we }, none)) := by
  have hs : s ≤ ci / n := (selectLower_mem hL).2
  constructor
  · intro _ hlt
    exact absurd hs (not_le.mpr hlt)
  · intro _ _
    have hsn : s * n ≤ ci := (le_div_iff₀ hn).mp hs
    rw [update_div_weight_eq_query ci n hEff, queryDecayList_eq_apply _ hU hL,
        applyDivDecay_step { st with decay_params_list := some pts } hk ci n w0 s we e]
    unfold stepValue
    rw [if_neg (not_lt.mpr hsn)]

/-- C6 witness: on the schedule `[(100,0), (100,1/2), (0,3/4), (0,1)]` with
the `step` kernel at progress `6000/10000 = 0.6 ≥ s = 1/2`, the assigned
value is the upper-bracket value `0`. -/
theorem step_kernel_indicator_witness :
    update_div_weight stepState2 6000 10000 [] =
      ({ stepState2 with weights := [1, 1, 1, 1, 0, 1, 1, 1] }, none) := by
  have h := step_kernel_indicator stepState2 6000 10000 []
    [(100, 0), (100, 1/2), (0, 3/4), (0, 1)] 0 (3/4) 100 (1/2)
    (by norm_num [effectiveParamsList, stepState2]) rfl (by norm_num)
    (by norm_num [selectUpper, pyMinByFrac, List.filter])
    (by norm_num [selectLower, pyMaxByFrac, List.filter])
  rw [h.2 (by norm_num) (by norm_num)]
  norm_num [stepState2, List.set]

/-! ### C10 -/

/-- C10: in every query whose lower-bracket search succeeds, the selected
fraction `s` satisfies `s ≤ current_iteration / n_iterations`, so (for
positive `n_iterations` and nonnegative `current_iteration`) the guard
`current_iteration < s * n_iterations` of the first branch of the `linear`,
`quintic` and `step` kernels never holds; in particular the `step` kernel
always assigns the upper-bracket value `we`. -/
theorem lower_bracket_guard_unreachable (st : LossState) (ci n : ℚ) (ps : List ℚ)
    (pts : List (ℚ × ℚ)) (we e w0 s : ℚ)
    (hEff : effectiveParamsList st ps = some pts)
    (hn : 0 < n) (hci : 0 ≤ ci)
    (hU : selectUpper pts (ci / n) = some (we, e))
    (hL : selectLower pts (ci / n) = some (w0, s)) :
    s ≤ ci / n ∧ ¬ ci < s * n ∧ stepValue ci n w0 s we = we ∧
    (st.div_decay = "step" →
      update_div_weight st ci n ps =
        ({ st with decay_params_list := some pts, weights := st.weights.set 4 we }, none)) := by
  have hs : s ≤ ci / n := (selectLower_mem hL).2
  have hsn : s * n ≤ ci := (le_div_iff₀ hn).mp hs
  have hnotlt : ¬ ci < s * n := not_lt.mpr hsn
  have hstep : stepValue ci n w0 s we = we := by
    unfold stepValue
    rw [if_neg hnotlt]
  refine ⟨hs, hnotlt, hstep, fun hk => ?_⟩
  rw [update_div_weight_eq_query ci n hEff, queryDecayList_eq_apply _ hU hL,
      applyDivDecay_step { st with decay_params_list := some pts } hk ci n w0 s we e, hstep]

/-- C10 witness: on the cached schedule `[(100,0), (0,1)]` with the `step`
kernel at `current_iteration=1, n_iterations=2`, the selected lower bracket
is `(100, 0)` and the call assigns the upper-bracket value `0`. -/
theorem lower_bracket_guard_unreachable_witness :
    update_div_weight stepState 1 2 [] =
      ({ stepState with weights := [1, 1, 1, 1, 0, 1, 1, 1] }, none) := by
  have h := lower_bracket_guard_unreachable stepState 1 2 [] [(100, 0), (0, 1)]
    0 1 100 0
    (by norm_num [effectiveParamsList, stepState]) (by norm_num) (by norm_num)
    (by norm_num [selectUpper, pyMinByFrac, List.filter])
    (by norm_num [selectLower, pyMaxByFrac, List.filter])
  rw [h.2.2.2 rfl]
  norm_num [stepState, List.set]

/-! ### C5 -/

theorem pairwise_frac_inj {l : List (ℚ × ℚ)} (hWF : l.Pairwise fun a b => a.2 < b.2)
    {x y : ℚ × ℚ} (hx : x ∈ l) (hy : y ∈ l) (hxy : x.2 = y.2) : x = y := by
  induction l with
  | nil => cases hx
  | cons a l ih =>
    have hpc := List.pairwise_cons.mp hWF
    rcases List.mem_cons.mp hx with h1 | h1 <;> rcases List.mem_cons.mp hy with h2 | h2
    · rw [h1, h2]
    · exfalso
      have hlt := hpc.1 y h2
      rw [← h1] at hlt
      exact absurd hxy (ne_of_lt hlt)
    · exfalso
      have hlt := hpc.1 x h1
      rw [← h2] at hlt
      exact absurd hxy (ne_of_gt hlt)
    · exact ih hpc.2 h1 h2

theorem selectUpper_at_point {pts : List (ℚ × ℚ)}
    (hWF : pts.Pairwise fun a b => a.2 < b.2)
    {v f : ℚ} (hMem : (v, f) ∈ pts) : selectUpper pts f = some (v, f) := by
  cases hsel : selectUpper pts f with
  | none =>
    exfalso
    have hnil : pts.filter (fun t => decide (f ≤ t.2)) = [] := pyMinByFrac_eq_none hsel
    have hmf : (v, f) ∈ pts.filter (fun t => decide (f ≤ t.2)) :=
      List.mem_filter.mpr ⟨hMem, decide_eq_true le_rfl⟩
    rw [hnil] at hmf
    cases hmf
  | some t =>
    obtain ⟨w, g⟩ := t
    have hm := selectUpper_mem hsel
    have hmin := selectUpper_min hsel (v, f) hMem le_rfl
    have hg : (w, g).2 = (v, f).2 := le_antisymm hmin hm.2
    rw [pairwise_frac_inj hWF hm.1 hMem hg]

theorem selectLower_at_point {pts : List (ℚ × ℚ)}
    (hWF : pts.Pairwise fun a b => a.2 < b.2)
    {v f : ℚ} (hMem : (v, f) ∈ pts) : selectLower pts f = some (v, f) := by
  cases hsel : selectLower pts f with
  | none =>
    exfalso
    have hnil : pts.filter (fun t => decide (t.2 ≤ f)) = [] := pyMaxByFrac_eq_none hsel
    have hmf : (v, f) ∈ pts.filter (fun t => decide (t.2 ≤ f)) :=
      List.mem_filter.mpr ⟨hMem, decide_eq_true le_rfl⟩
    rw [hnil] at hmf
    cases hmf
  | some t =>
    obtain ⟨w, g⟩ := t
    have hm := selectLower_mem hsel
    have hmax := selectLower_max hsel (v, f) hMem le_rfl
    have hg : (w, g).2 = (v, f).2 := le_antisymm hm.2 hmax
    rw [pairwise_frac_inj hWF hm.1 hMem hg]

/-- C5: on a well-formed schedule (strictly increasing fractions), a query
whose progress `ci / n` equals the fraction `f` of a control point `(v, f)`
selects that control point as both brackets (a zero-width bracketing pair)
and assigns exactly `v`, for each of the `linear`, `quintic` and `step`
kernels. -/
theorem exact_control_point_value (st : LossState) (ci n : ℚ) (ps : List ℚ)
    (pts : List (ℚ × ℚ)) (v f : ℚ)
    (hEff : effectiveParamsList st ps = some pts)
    (hWF : pts.Pairwise fun a b => a.2 < b.2)
    (hMem : (v, f) ∈ pts)
    (hn : 0 < n) (hp : ci / n = f)
    (hk : st.div_decay = "linear" ∨ st.div_decay = "quintic" ∨ st.div_decay = "step") :
    update_div_weight st ci n ps =
      ({ st with decay_params_list := some pts, weights := st.weights.set 4 v }, none) := by
  have hU : selectUpper pts (ci / n) = some (v, f) := by
    rw [hp]
    exact selectUpper_at_point hWF hMem
  have hL : selectLower pts (ci / n) = some (v, f) := by
    rw [hp]
    exact selectLower_at_point hWF hMem
  have hci : ci = f * n := (div_eq_iff (ne_of_gt hn)).mp hp
  have hnotlt : ¬ ci < f * n := by
    rw [hci]
    exact lt_irrefl _
  have hnotbr : ¬ (f * n ≤ ci ∧ ci < f * n) := by
    intro hcontra
    rw [hci] at hcontra
    exact lt_irrefl _ hcontra.2
  rw [update_div_weight_eq_query ci n hEff, queryDecayList_eq_apply _ hU hL]
  rcases hk with hk | hk | hk
  · rw [applyDivDecay_linear { st with decay_params_list := some pts } hk ci n v f v f]
    unfold linearValue
    rw [if_neg hnotlt, if_neg hnotbr]
  · rw [applyDivDecay_quintic { st with decay_params_list := some pts } hk ci n v f v f]
    unfold quinticValue
    rw [if_neg hnotlt, if_neg hnotbr]
  · rw [applyDivDecay_step { st with decay_params_list := some pts } hk ci n v f v]
    unfold stepValue
    rw [if_neg hnotlt]

/-- A `Loss` object with `div_decay="quintic"` and the cached schedule of the
spec's running example. -/
def quinticState : LossState :=
  { weights := [1, 1, 1, 1, 1, 1, 1, 1], loss_type := "siren_w_div",
    div_decay := "quintic", heat_lambda := 100,
    decay_params_list := some [(100, 0), (100, 1/2), (0, 3/4), (0, 1)] }

/-- C5 witness: at progress `7500/10000 = 3/4`, exactly the fraction of the
control point `(0, 3/4)`, the quintic kernel assigns exactly `0`. -/
theorem exact_control_point_value_witness :
    update_div_weight quinticState 7500 10000 [] =
      ({ quinticState with weights := [1, 1, 1, 1, 0, 1, 1, 1] }, none) := by
  have h := exact_control_point_value quinticState 7500 10000 []
    [(100, 0), (100, 1/2), (0, 3/4), (0, 1)] 0 (3/4)
    (by norm_num [effectiveParamsList, quinticState])
    (by norm_num [List.pairwise_cons])
    (by norm_num)
    (by norm_num) (by norm_num)
    (Or.inr (Or.inl rfl))
  rw [h]
  norm_num [quinticState, List.set]

/-! ### C7 -/

/-- C7: once the control-point list has been cached by a first call, every
subsequent call ignores its `params` argument entirely (the result does not
depend on it, even for malformed params), never fails the construction
asserts, and keeps the cached control-point list for its query. -/
theorem update_memoized (st : LossState) (ci n : ℚ) (l : List (ℚ × ℚ))
    (hC : st.decay_params_list = some l) (ps1 ps2 : List ℚ) :
    update_div_weight st ci n ps1 = update_div_weight st ci n ps2 ∧
    ¬ (update_div_weight st ci n ps1).2 = some UpdError.assertionError ∧
    (update_div_weight st ci n ps1).1.decay_params_list = some l := by
  have hEff : ∀ ps : List ℚ, effectiveParamsList st ps = some l := by
    intro ps
    unfold effectiveParamsList
    rw [hC]
  refine ⟨?_, ?_, ?_⟩
  · rw [update_div_weight_eq_query ci n (hEff ps1), update_div_weight_eq_query ci n (hEff ps2)]
  · rw [update_div_weight_eq_query ci n (hEff ps1)]
    exact queryDecayList_snd_ne_assert _ ci n l
  · rw [update_div_weight_eq_query ci n (hEff ps1)]
    rw [queryDecayList_fst_decay_list]

/-- C7 witness: on a state with a cached schedule, a call with empty params
and a call with malformed params `[5]` return the same result, do not fail
the asserts, and keep the cached list. -/
theorem update_memoized_witness :
    update_div_weight stepState 1 2 [] = update_div_weight stepState 1 2 [5] ∧
    ¬ (update_div_weight stepState 1 2 []).2 = some UpdError.assertionError ∧
    (update_div_weight stepState 1 2 []).1.decay_params_list = some [(100, 0), (0, 1)] :=
  update_memoized stepState 1 2 [(100, 0), (0, 1)] rfl [] [5]

/-! ### C3 -/

/-- A `Loss` object whose cached schedule has two control points sharing the
fraction `1/2`. -/
def dupState : LossState :=
  { weights := [0, 0, 0, 0, 0, 0, 0, 0], loss_type := "siren_w_div",
    div_decay := "linear", heat_lambda := 100,
    decay_params_list := some [(100, 0), (5, 1/2), (7, 1/2), (0, 1)] }

/-- C3 counterexample: on a schedule whose control points share the fraction
`1/2`, queried at progress `1/2` — exactly the `s = e` situation the claim
says executes the division by `(e - s) = 0` — both brackets come out as
`(5, 1/2)`, the guard of the dividing branch (`interpolationBranch`) is
false, and the linear kernel assigns `we = 5` via the final else branch
without executing the division. -/
theorem equal_brackets_no_division_cex :
    selectUpper [(100, 0), (5, 1/2), (7, 1/2), (0, 1)] (1 / 2) = some (5, 1/2) ∧
    selectLower [(100, 0), (5, 1/2), (7, 1/2), (0, 1)] (1 / 2) = some (5, 1/2) ∧
    interpolationBranch 1 2 (1/2) (1/2) = false ∧
    update_div_weight dupState 1 2 [] =
      ({ dupState with weights := [0, 0, 0, 0, 5, 0, 0, 0] }, none) := by
  refine ⟨?_, ?_, ?_, ?_⟩
  · norm_num [selectUpper, pyMinByFrac, List.filter]
  · norm_num [selectLower, pyMaxByFrac, List.filter]
  · norm_num [interpolationBranch]
  · norm_num [update_div_weight, effectiveParamsList, queryDecayList, applyDivDecay,
      selectUpper, selectLower, pyMinByFrac, pyMaxByFrac, linearValue, dupState, List.filter,
      List.set]

/-- C3 amended: whenever the selected brackets share a fraction (`e = s`),
the progress necessarily equals that shared fraction, so the guard of the
dividing branch is false and the `linear`/`quintic` kernels assign `we`
through the final else branch: the division by `(e - s)` is never executed
(the guard is implicit in the branch structure, not an explicit check). -/
theorem equal_brackets_take_else_branch (st : LossState) (ci n : ℚ) (ps : List ℚ)
    (pts : List (ℚ × ℚ)) (we e w0 s : ℚ)
    (hEff : effectiveParamsList st ps = some pts)
    (hn : 0 < n)
    (hU : selectUpper pts (ci / n) = some (we, e))
    (hL : selectLower pts (ci / n) = some (w0, s))
    (hse : e = s)
    (hk : st.div_decay = "linear" ∨ st.div_decay = "quintic") :
    interpolationBranch ci n s e = false ∧
    update_div_weight st ci n ps =
      ({ st with decay_params_list := some pts, weights := st.weights.set 4 we }, none) := by
  have hsc : s ≤ ci / n := (selectLower_mem hL).2
  have hce : ci / n ≤ e := (selectUpper_mem hU).2
  have heq : ci / n = s := le_antisymm (hse ▸ hce) hsc
  have hci : ci = s * n := (div_eq_iff (ne_of_gt hn)).mp heq
  have hnotlt : ¬ ci < s * n := by
    rw [hci]
    exact lt_irrefl _
  have hnotbr : ¬ (s * n ≤ ci ∧ ci < e * n) := by
    intro hcontra
    rw [hse, ← hci] at hcontra
    exact lt_irrefl _ hcontra.2
  constructor
  · unfold interpolationBranch
    rw [decide_eq_false hnotbr, Bool.and_false]
  · rcases hk with hk | hk
    · rw [update_div_weight_eq_query ci n hEff, queryDecayList_eq_apply _ hU hL,
          applyDivDecay_linear { st with decay_params_list := some pts } hk ci n w0 s we e]
      unfold linearValue
      rw [if_neg hnotlt, if_neg hnotbr]
    · rw [update_div_weight_eq_query ci n hEff, queryDecayList_eq_apply _ hU hL,
          applyDivDecay_quintic { st with decay_params_list := some pts } hk ci n w0 s we e]
      unfold quinticValue
      rw [if_neg hnotlt, if_neg hnotbr]

/-- C3 witness: the amended theorem applied to the shared-fraction schedule
at progress `1/2`. -/
theorem equal_brackets_take_else_branch_witness :
    interpolationBranch 1 2 (1/2) (1/2) = false ∧
    update_div_weight dupState 1 2 [] =
      ({ dupState with weights := [0, 0, 0, 0, 5, 0, 0, 0] }, none) := by
  have h := equal_brackets_take_else_branch dupState 1 2 []
    [(100, 0), (5, 1/2), (7, 1/2), (0, 1)] 5 (1/2) 5 (1/2)
    (by norm_num [effectiveParamsList, dupState]) (by norm_num)
    (by norm_num [selectUpper, pyMinByFrac, List.filter])
    (by norm_num [selectLower, pyMaxByFrac, List.filter])
    rfl (Or.inl rfl)
  refine ⟨h.1, ?_⟩
  rw [h.2]
  norm_num [dupState, List.set]

/-! ### C8 -/

/-- A freshly constructed `Loss` object with zero weights and
`div_decay="linear"`. -/
def freshLinearState : LossState :=
  { weights := [0, 0, 0, 0, 0, 0, 0, 0], loss_type := "siren_w_div",
    div_decay := "linear", heat_lambda := 100, decay_params_list := none }

/-- C8 counterexample: params `(1, 3/2, 5, 0)` passes both asserts and
constructs the schedule `[(1,0), (5,3/2), (0,1)]`, whose last control
point's fraction is `1`; at progress `6/5 > 1` the upper-bracket filter is
nonempty (it still contains `(5, 3/2)`), no error is raised, and the call
writes `weights[4] = 2` — contradicting the claim that every such query
fails. -/
theorem out_of_range_no_error_cex :
    effectiveParamsList freshLinearState [1, 3/2, 5, 0] = some [(1, 0), (5, 3/2), (0, 1)] ∧
    selectUpper [(1, 0), (5, 3/2), (0, 1)] (6 / 5) = some (5, 3/2) ∧
    update_div_weight freshLinearState 6 5 [1, 3/2, 5, 0] =
      ({ freshLinearState with decay_params_list := some [(1, 0), (5, 3/2), (0, 1)], weights := [0, 0, 0, 0, 2, 0, 0, 0] }, none) := by
  refine ⟨?_, ?_, ?_⟩
  · norm_num [effectiveParamsList, freshLinearState, decayParamsListOf, middleOf,
      sliceEvery2, sliceEvery2Off1, List.dropLast]
  · norm_num [selectUpper, pyMinByFrac, List.filter]
  · norm_num [update_div_weight, effectiveParamsList, freshLinearState, decayParamsListOf,
      middleOf, sliceEvery2, sliceEvery2Off1, List.dropLast, queryDecayList, applyDivDecay,
      selectUpper, selectLower, pyMinByFrac, pyMaxByFrac, linearValue, List.filter, List.set]

/-- C8 amended: for every constructed schedule all of whose control-point
fractions are at most `1` (which holds for every well-formed schedule), a
query at progress `> 1` leaves the upper-bracket filter empty, so the call
fails with `ValueError` and the weight vector is unchanged. -/
theorem out_of_range_value_error (st : LossState) (ci n : ℚ) (ps : List ℚ)
    (pts : List (ℚ × ℚ))
    (hEff : effectiveParamsList st ps = some pts)
    (hFr : ∀ t ∈ pts, t.2 ≤ 1)
    (hGt : 1 < ci / n) :
    update_div_weight st ci n ps =
      ({ st with decay_params_list := some pts }, some UpdError.valueError) ∧
    (update_div_weight st ci n ps).1.weights = st.weights := by
  have hFlt : pts.filter (fun t => decide (ci / n ≤ t.2)) = [] := by
    rw [List.filter_eq_nil_iff]
    intro t ht
    simp only [decide_eq_true_eq]
    exact not_le.mpr (lt_of_le_of_lt (hFr t ht) hGt)
  have hU : selectUpper pts (ci / n) = none := by
    unfold selectUpper
    rw [hFlt]
    rfl
  have hq : queryDecayList { st with decay_params_list := some pts } ci n pts =
      ({ st with decay_params_list := some pts }, some UpdError.valueError) := by
    unfold queryDecayList
    rw [hU]
  rw [update_div_weight_eq_query ci n hEff, hq]
  exact ⟨rfl, rfl⟩

/-- C8 witness: on the cached well-formed schedule `[(100,0), (0,1)]`, a
query at progress `3/2 > 1` fails with `ValueError` and leaves the weights
unchanged. -/
theorem out_of_range_value_error_witness :
    update_div_weight stepState 3 2 [] = (stepState, some UpdError.valueError) := by
  have h := out_of_range_value_error stepState 3 2 [] [(100, 0), (0, 1)]
    (by norm_num [effectiveParamsList, stepState])
    (by norm_num [List.forall_mem_cons]) (by norm_num)
  rw [h.1]
  norm_num [stepState]

/-! ### C9 -/

/-- C9 counterexample: params `(1, 1/2, 2, 3)` has 4 elements and an even
count (2) of middle elements, so both asserts pass: the first call builds
`[(1,0), (2,1/2), (3,1)]` and succeeds with no error — contradicting the
claim that this particular params sequence fails with a configuration
error. -/
theorem even_middle_params_accepted_cex :
    middleOf [1, 1/2, 2, 3] = [1/2, 2] ∧
    update_div_weight freshLinearState 0 1 [1, 1/2, 2, 3] =
      ({ freshLinearState with decay_params_list := some [(1, 0), (2, 1/2), (3, 1)], weights := [0, 0, 0, 0, 1, 0, 0, 0] }, none) := by
  refine ⟨?_, ?_⟩
  · norm_num [middleOf, List.dropLast]
  · norm_num [update_div_weight, effectiveParamsList, freshLinearState, decayParamsListOf,
      middleOf, sliceEvery2, sliceEvery2Off1, List.dropLast, queryDecayList, applyDivDecay,
      selectUpper, selectLower, pyMinByFrac, pyMaxByFrac, linearValue, List.filter, List.set]

/-- C9 amended: a first weight-update call (no cached list) fails with the
assertion error if and only if the params sequence has fewer than 2 elements
or an odd count of middle elements, and on that failure the call returns
the state unchanged (no control-point list built, no weight written).
The claim's example `(1.0, 0.5, 2.0, 3.0)` has an even middle count and is
accepted; an odd-middle example such as `(1.0, 2.0, 3.0)` fails. -/
theorem first_call_assert_iff (st : LossState) (ci n : ℚ) (ps : List ℚ)
    (hNone : st.decay_params_list = none) :
    ((update_div_weight st ci n ps).2 = some UpdError.assertionError ↔
      ps.length < 2 ∨ (middleOf ps).length % 2 = 1) ∧
    ((update_div_weight st ci n ps).2 = some UpdError.assertionError →
      update_div_weight st ci n ps = (st, some UpdError.assertionError)) := by
  by_cases hc : 2 ≤ ps.length ∧ (middleOf ps).length % 2 = 0
  · have hEff : effectiveParamsList st ps = some (decayParamsListOf ps) := by
      unfold effectiveParamsList
      rw [hNone, if_pos hc]
    rw [update_div_weight_eq_query ci n hEff]
    constructor
    · constructor
      · intro h
        exact absurd h (queryDecayList_snd_ne_assert _ ci n _)
      · intro h
        exfalso
        rcases h with h | h
        · exact absurd hc.1 (not_le.mpr h)
        · omega
    · intro h
      exact absurd h (queryDecayList_snd_ne_assert _ ci n _)
  · have hEff : effectiveParamsList st ps = none := by
      unfold effectiveParamsList
      rw [hNone, if_neg hc]
    have hupd : update_div_weight st ci n ps = (st, some UpdError.assertionError) := by
      unfold update_div_weight
      rw [hEff]
    rw [hupd]
    refine ⟨⟨fun _ => ?_, fun _ => rfl⟩, fun _ => rfl⟩
    rcases Nat.lt_or_ge ps.length 2 with h | h
    · exact Or.inl h
    · right
      have h2 : ¬ (middleOf ps).length % 2 = 0 := fun hz => hc ⟨h, hz⟩
      omega

/-- C9 witness: the characterization applied to a fresh state and the
odd-middle params `(1, 2, 3)`. -/
theorem first_call_assert_iff_witness :
    ((update_div_weight freshLinearState 0 1 [1, 2, 3]).2 = some UpdError.assertionError ↔
      ([1, 2, 3] : List ℚ).length < 2 ∨ (middleOf [1, 2, 3]).length % 2 = 1) ∧
    ((update_div_weight freshLinearState 0 1 [1, 2, 3]).2 = some UpdError.assertionError →
      update_div_weight freshLinearState 0 1 [1, 2, 3] =
        (freshLinearState, some UpdError.assertionError)) :=
  first_call_assert_iff freshLinearState 0 1 [1, 2, 3] rfl

/-! ### C2 -/

/-- A `Loss` object configured with the preset `siren_wo_n`. -/
def sirenWoNState : LossState :=
  { weights := [1, 1, 1, 1, 1, 1, 1, 1], loss_type := "siren_wo_n",
    div_decay := "none", heat_lambda := 100, decay_params_list := none }

/-- C2 counterexample: with the preset `siren_wo_n`, `Loss.forward` executes
`self.weights[2] = 0`: the weight vector changes from `[1,1,1,1,1,1,1,1]`
to `[1,1,0,1,1,1,1,1]`, so the forward call does write the weight vector
for this preset, contradicting the claim that it leaves it unchanged for
every preset. -/
theorem forward_mutates_weights_cex :
    forward_state_effect sirenWoNState =
      { sirenWoNState with weights := [1, 1, 0, 1, 1, 1, 1, 1] } ∧
    sirenWoNState.weights.getD 2 0 = 1 ∧
    (forward_state_effect sirenWoNState).weights.getD 2 0 = 0 := by
  refine ⟨?_, ?_, ?_⟩
  · unfold forward_state_effect sirenWoNState forwardWeightWrites
    rw [if_neg (by decide), if_pos rfl]
    rfl
  · rfl
  · unfold forward_state_effect sirenWoNState forwardWeightWrites
    rw [if_neg (by decide), if_pos rfl]
    rfl

/-- C2 amended: `Loss.forward` touches no field of the loss-configuration
object other than the weight vector, and leaves the weight vector itself
unchanged for every preset except `siren_wo_n` (which zeroes `weights[2]`),
`igr` (which zeroes `weights[1]`) and `igr_wo_n` (which zeroes both). -/
theorem forward_state_effect_spec (st : LossState) :
    (st.loss_type ∈ (["siren", "siren_w_div", "siren_wo_n_w_div", "igr_wo_eik_w_heat",
        "igr_w_heat", "sal", "phase", "everything_including_div_heat_sal"] : List String) →
      forward_state_effect st = st) ∧
    (st.loss_type = "siren_wo_n" →
      forward_state_effect st = { st with weights := st.weights.set 2 0 }) ∧
    (st.loss_type = "igr" →
      forward_state_effect st = { st with weights := st.weights.set 1 0 }) ∧
    (st.loss_type = "igr_wo_n" →
      forward_state_effect st = { st with weights := (st.weights.set 1 0).set 2 0 }) ∧
    (forward_state_effect st).loss_type = st.loss_type ∧
    (forward_state_effect st).div_decay = st.div_decay ∧
    (forward_state_effect st).heat_lambda = st.heat_lambda ∧
    (forward_state_effect st).decay_params_list = st.decay_params_list := by
  refine ⟨?_, ?_, ?_, ?_, rfl, rfl, rfl, rfl⟩
  · intro h
    have hw : forwardWeightWrites st.loss_type st.weights = st.weights := by
      simp only [List.mem_cons, List.not_mem_nil, or_false] at h
      rcases h with h | h | h | h | h | h | h | h <;> rw [h] <;> simp [forwardWeightWrites]
    unfold forward_state_effect
    rw [hw]
  · intro h
    unfold forward_state_effect
    rw [h]
    simp [forwardWeightWrites]
  · intro h
    unfold forward_state_effect
    rw [h]
    simp [forwardWeightWrites]
  · intro h
    unfold forward_state_effect
    rw [h]
    simp [forwardWeightWrites]

/-! ### C4 -/

/-- The spec's shape of a params sequence's middle part: a list of
`(mid_fraction, mid_value)` pairs, flattened into the flat sequence
`[mid_fraction, mid_value]*`. -/
def flatMiddle : List (ℚ × ℚ) → List ℚ
  | [] => []
  | m :: rest => m.1 :: m.2 :: flatMiddle rest

/-- Modelled from the spec: the control-point list the spec says schedule
construction builds,
`[(start_value, 0.0), (mid_value_1, mid_fraction_1), ..., (end_value, 1.0)]`. -/
def specControlPoints (a : ℚ) (mids : List (ℚ × ℚ)) (b : ℚ) : List (ℚ × ℚ) :=
  (a, 0) :: ((mids.map fun m => (m.2, m.1)) ++ [(b, 1)])

theorem sliceEvery2_cons (v : ℚ) (l : List ℚ) :
    sliceEvery2 (v :: l) = v :: sliceEvery2 (l.drop 1) := by
  cases l with
  | nil => rfl
  | cons x l2 => rfl

theorem getLastD_append_singleton (l : List ℚ) (b : ℚ) :
    ∀ d : ℚ, (l ++ [b]).getLastD d = b := by
  induction l with
  | nil =>
    intro d
    rfl
  | cons a l ih =>
    intro d
    rw [List.cons_append, List.getLastD_cons]
    exact ih a

theorem slices_flatMiddle (mids : List (ℚ × ℚ)) :
    sliceEvery2 (flatMiddle mids) = mids.map (fun m => m.1) ∧
    sliceEvery2Off1 (flatMiddle mids) = mids.map (fun m => m.2) := by
  induction mids with
  | nil => exact ⟨rfl, rfl⟩
  | cons m rest ih =>
    constructor
    · show sliceEvery2 (m.1 :: m.2 :: flatMiddle rest) = _
      rw [sliceEvery2_cons]
      simp only [List.drop_succ_cons, List.drop_zero]
      rw [ih.1]
      rfl
    · show sliceEvery2 ((m.1 :: m.2 :: flatMiddle rest).drop 1) = _
      simp only [List.drop_succ_cons, List.drop_zero]
      rw [sliceEvery2_cons]
      show m.2 :: sliceEvery2Off1 (flatMiddle rest) = _
      rw [ih.2]
      rfl

/-- C4: schedule construction from the flat params sequence
`(start_value, [mid_fraction, mid_value]*, end_value)` builds exactly the
control-point list
`[(start_value, 0), (mid_value_1, mid_fraction_1), ..., (end_value, 1)]`:
the values are the start value, every second middle element starting from
the second, and the end value; the fractions are `0`, every second middle
element starting from the first, and `1`. -/
theorem construction_builds_spec_points (a b : ℚ) (mids : List (ℚ × ℚ)) :
    decayParamsListOf (a :: (flatMiddle mids ++ [b])) = specControlPoints a mids b := by
  have hmid : middleOf (a :: (flatMiddle mids ++ [b])) = flatMiddle mids := by
    unfold middleOf
    simp only [List.drop_succ_cons, List.drop_zero]
    simp
  have hlast : (a :: (flatMiddle mids ++ [b])).getLastD 0 = b := by
    rw [← List.cons_append]
    exact getLastD_append_singleton (a :: flatMiddle mids) b 0
  unfold decayParamsListOf specControlPoints
  rw [hmid, (slices_flatMiddle mids).1, (slices_flatMiddle mids).2, hlast]
  rw [List.headD_cons, List.zip_cons_cons, List.zip_append (by simp), List.zip_map']
  rfl

end HotSpotLoss
